import Mathlib

/-
Shallow embedding of src/mian.py (ZIP-GIF repository), centred on the
compress_gif function (lines 12-74).  External effects (PIL decode,
resize, encode, the filesystem) are abstracted into an environment of
oracles; the control flow, parameter policy, event emission order and
outcome classification are translated line by line from the source.
-/

set_option maxHeartbeats 1000000

namespace ZipGif

/-- Resolution as a (width, height) pair of Python ints. -/
abbrev Res := Nat × Nat

/-- Terminal outcome of one compression run (the spec's CompressionOutcome). -/
inductive Outcome
  | Succeeded
  | Exhausted
  | Cancelled
  | Failed
deriving DecidableEq

/-- Cause of exit of the inner while-loop of compress_gif:
success (break after rename, line 53), exhaustion (break at line 67),
cancellation (the `while running` condition turned false, line 26),
or an exception raised inside the loop (caught at line 68). -/
inductive LoopExit
  | success
  | exhausted
  | cancelled
  | errored
deriving DecidableEq

/-- Mapping from the loop-exit cause to the spec's outcome taxonomy. -/
def LoopExit.toOutcome : LoopExit → Outcome
  | LoopExit.success => Outcome.Succeeded
  | LoopExit.exhausted => Outcome.Exhausted
  | LoopExit.cancelled => Outcome.Cancelled
  | LoopExit.errored => Outcome.Failed

/-- Observable events of one run of compress_gif, in program order:
the encode of the temporary artifact (frames[0].save, line 39), the size
log line (line 43), the preview callback (line 46), the rename of the
temporary file onto the destination (line 50), the success log (line 52),
the exhaustion log (line 66), the error log (line 70), the clearing of
the global running flag (line 72) and the finish callback (line 74). -/
inductive Event
  | encodeTemp (frames : List Nat)
  | progressMsg (size : Nat) (res : Res) (fps : ℚ)
  | previewTemp
  | renameToDest
  | logSuccess
  | logExhaust
  | logError
  | clearRunning
  | finishCb
deriving DecidableEq

/-- Arguments of compress_gif (lines 12-13).  The three callback
parameters are modelled by booleans saying whether each callback was
supplied (the code guards every invocation with `if callback:`). -/
structure Request where
  maxSizeKB : Nat
  initialResolution : Res
  resolutionStep : Nat
  fpsReductionStep : ℚ
  minResolution : Res
  hasLog : Bool
  hasPreview : Bool
  hasFinish : Bool

/-- Byte budget, line 16: max_size_bytes = max_size_kb * 1024. -/
def Request.maxSizeBytes (req : Request) : Nat := req.maxSizeKB * 1024

/-- Oracle environment for the external collaborators of compress_gif:
whether Image.open raises (line 21), the 'duration' entry of img.info
(line 22, none when the key is missing), the decoded source frame
sequence (frames identified by ids), the resize-and-convert transform at
a given resolution (lines 32-33), and the encode step (lines 39-40):
frames[0].save followed by os.path.getsize, returning the byte size or
an error when the codec raises. -/
structure Env where
  openFails : Bool
  durationInfo : Option ℚ
  frames : List Nat
  procF : Res → Nat → Nat
  encodeSize : List Nat → Except Unit Nat

/-- Python's round (banker's rounding, round-half-to-even) on a rational. -/
def pyRound (q : ℚ) : ℤ :=
  if q - ⌊q⌋ < 1 / 2 then ⌊q⌋
  else if 1 / 2 < q - ⌊q⌋ then ⌊q⌋ + 1
  else if 2 ∣ ⌊q⌋ then ⌊q⌋ else ⌊q⌋ + 1

/-- Frame-subsampling stride, line 34: max(1, round(original_fps / current_fps)). -/
def strideN (origFps curFps : ℚ) : Nat := (max 1 (pyRound (origFps / curFps))).toNat

/-- Native frame rate derivation, lines 22-23:
original_duration = img.info.get('duration', 100);
original_fps = 1000 / original_duration if original_duration else 10. -/
def nativeFps (durationInfo : Option ℚ) : ℚ :=
  let d := durationInfo.getD 100
  if d ≠ 0 then 1000 / d else 10

/-- The per-iteration frame loop, lines 31-36: every frame is resized and
converted, and those whose index is a multiple of the stride are kept,
in order.  `k` is the running frame_count. -/
def framesLoop {α : Type} (proc : α → α) (n : Nat) : Nat → List α → List α
  | _, [] => []
  | k, f :: rest =>
    if k % n = 0 then proc f :: framesLoop proc n (k + 1) rest
    else framesLoop proc n (k + 1) rest

/-- Decision of the next-parameter policy: shrink resolution, lower the
frame rate, or stop (exhausted). -/
inductive NextStep
  | shrink (res : Res)
  | slow (fps : ℚ)
  | exhausted
deriving DecidableEq

/-- Next-parameter policy, lines 55-67 of compress_gif: resolution is
shrunk (each axis reduced by the step and clamped from below to its
minimum) when BOTH axes strictly exceed their minimums; otherwise the
frame rate is reduced by the step when it strictly exceeds the step;
otherwise the search is exhausted. -/
def nextParams (res minRes : Res) (step : Nat) (fps fstep : ℚ) : NextStep :=
  if res.1 > minRes.1 ∧ res.2 > minRes.2 then
    NextStep.shrink (max minRes.1 (res.1 - step), max minRes.2 (res.2 - step))
  else if fps > fstep then NextStep.slow (fps - fstep)
  else NextStep.exhausted

/-- Result of one iteration of the while-loop: either the loop stops with
an exit cause, or it continues with updated parameters; both carry the
events emitted during the iteration. -/
inductive StepRes
  | stop (evs : List Event) (ex : LoopExit)
  | next (res : Res) (fps : ℚ) (evs : List Event)

/-- Events emitted by the encode-measure-report part of one iteration
(lines 39-46): the temporary encode, then the size log line when a log
callback was supplied, then the preview callback when supplied. -/
def iterEvs (req : Request) (size : Nat) (res : Res) (fps : ℚ) (sel : List Nat) : List Event :=
  Event.encodeTemp sel ::
    ((if req.hasLog then [Event.progressMsg size res fps] else []) ++
     (if req.hasPreview then [Event.previewTemp] else []))

/-- One iteration of the while-loop of compress_gif (lines 26-67).
`k` is the iteration index and `runningAt k` is the value of the global
`running` flag read by the loop condition at iteration `k` (the flag is
written concurrently by the UI thread).  An empty selected-frames list
makes frames[0] raise IndexError; the encode oracle may also raise. -/
def loopBody (env : Env) (req : Request) (origFps : ℚ) (runningAt : Nat → Bool)
    (k : Nat) (res : Res) (fps : ℚ) : StepRes :=
  if runningAt k then
    match framesLoop (env.procF res) (strideN origFps fps) 0 env.frames with
    | [] => StepRes.stop [] LoopExit.errored
    | f0 :: fs =>
      match env.encodeSize (f0 :: fs) with
      | Except.error _ => StepRes.stop [] LoopExit.errored
      | Except.ok size =>
        if size ≤ req.maxSizeBytes then
          StepRes.stop (iterEvs req size res fps (f0 :: fs) ++ Event.renameToDest ::
            (if req.hasLog then [Event.logSuccess] else [])) LoopExit.success
        else
          match nextParams res req.minResolution req.resolutionStep fps req.fpsReductionStep with
          | NextStep.shrink r2 => StepRes.next r2 fps (iterEvs req size res fps (f0 :: fs))
          | NextStep.slow f2 => StepRes.next res f2 (iterEvs req size res fps (f0 :: fs))
          | NextStep.exhausted =>
            StepRes.stop (iterEvs req size res fps (f0 :: fs) ++
              (if req.hasLog then [Event.logExhaust] else [])) LoopExit.exhausted
  else StepRes.stop [] LoopExit.cancelled

/-- The while-loop of compress_gif, unrolled on explicit fuel; `none`
means the fuel ran out before the loop exited (used to express
termination bounds as theorems). -/
def iterate (env : Env) (req : Request) (origFps : ℚ) (runningAt : Nat → Bool) :
    Nat → Nat → Res → ℚ → Option (List Event × LoopExit)
  | 0, _, _, _ => none
  | fuel + 1, k, res, fps =>
    match loopBody env req origFps runningAt k res fps with
    | StepRes.stop evs ex => some (evs, ex)
    | StepRes.next r2 f2 evs =>
      (iterate env req origFps runningAt fuel (k + 1) r2 f2).map
        (fun p => (evs ++ p.1, p.2))

/-- Events of the finally-block, lines 71-74: the running flag is cleared
and then, when supplied, the finish callback is invoked. -/
def finallyEvents (req : Request) : List Event :=
  Event.clearRunning :: (if req.hasFinish then [Event.finishCb] else [])

/-- The whole of compress_gif (lines 12-74): open the source (a failure
raises and is caught at line 68), derive the native frame rate once,
run the while-loop from the initial resolution at the native frame rate,
log an error when an exception was caught, and run the finally-block. -/
def compress_gif (env : Env) (req : Request) (runningAt : Nat → Bool) (fuel : Nat) :
    Option (List Event × Outcome) :=
  if env.openFails then
    some ((if req.hasLog then [Event.logError] else []) ++ finallyEvents req,
      Outcome.Failed)
  else
    match iterate env req (nativeFps env.durationInfo) runningAt fuel 0
        req.initialResolution (nativeFps env.durationInfo) with
    | none => none
    | some (evs, ex) =>
      some (evs ++ (if ex = LoopExit.errored then
              (if req.hasLog then [Event.logError] else []) else [])
            ++ finallyEvents req, ex.toOutcome)

/-- Projection of an event to the (resolution, fps) parameters it reports,
defined only for progress events. -/
def paramsOf : Event → Option (Res × ℚ)
  | Event.progressMsg _ r f => some (r, f)
  | _ => none

/-- The (resolution, fps) parameter trace of the progress events of a run. -/
def paramTrace (evs : List Event) : List (Res × ℚ) := evs.filterMap paramsOf

/-- Number of frame-rate reductions available from `fps` with step `fstep`,
as the ceiling of their ratio. -/
def fpsIters (fps fstep : ℚ) : Nat := (⌈fps / fstep⌉).toNat

/-- Termination measure of the while-loop: remaining resolution slack on
each axis plus the remaining frame-rate reductions. -/
def loopMeasure (req : Request) (res : Res) (fps : ℚ) : Nat :=
  (res.1 - req.minResolution.1) + (res.2 - req.minResolution.2)
    + fpsIters fps req.fpsReductionStep

/-- Iteration bound for a whole run, derived from the per-axis resolution
slack over the step and the native frame rate over the fps step. -/
def loopBound (req : Request) (env : Env) : Nat :=
  loopMeasure req req.initialResolution (nativeFps env.durationInfo) + 1

/-- Claim C1's statement of the next-parameter policy, written from the
spec's words for comparison with the code: in every run, whenever a
progress event is followed by another one (so the iteration's candidate
exceeded the budget and the search continued) and either axis of the
reported resolution exceeds the corresponding axis of the configured
minimum, the next event keeps the frame rate unchanged and reports both
axes shrunk by the resolution step, clamped from below to the minimum. -/
def ResolutionFirstPolicy : Prop :=
  ∀ (env : Env) (req : Request) (runningAt : Nat → Bool) (fuel : Nat)
    (evs : List Event) (out : Outcome),
    compress_gif env req runningAt fuel = some (evs, out) →
    ∀ i a b, (paramTrace evs)[i]? = some a → (paramTrace evs)[i + 1]? = some b →
      (req.minResolution.1 < a.1.1 ∨ req.minResolution.2 < a.1.2) →
      b.2 = a.2 ∧ b.1 = (max req.minResolution.1 (a.1.1 - req.resolutionStep),
                         max req.minResolution.2 (a.1.2 - req.resolutionStep))

/-- Concrete environment in which no candidate ever fits: a one-frame
source with a 100 ms frame interval (native fps 10) and every encode
measuring 2000000 bytes. -/
def envBig : Env := ⟨false, some 100, [0], fun _ f => f, fun _ => Except.ok 2000000⟩

/-- Concrete valid request: budget 1 KB, initial resolution (40, 32),
step 8, fps step 6, minimum (32, 32), all callbacks supplied.  Its width
starts above the minimum while its height starts at the minimum. -/
def reqA : Request := ⟨1, (40, 32), 8, 6, (32, 32), true, true, true⟩

/-- The event list of the run of compress_gif on envBig and reqA:
two over-budget iterations (frame rate 10, then 4) and exhaustion. -/
def evsA : List Event :=
  [Event.encodeTemp [0], Event.progressMsg 2000000 (40, 32) 10, Event.previewTemp,
   Event.encodeTemp [0], Event.progressMsg 2000000 (40, 32) 4, Event.previewTemp,
   Event.logExhaust, Event.clearRunning, Event.finishCb]

/-- Concrete environment in which every candidate fits: a one-frame
source with a 100 ms frame interval and every encode measuring 1 byte. -/
def envFit : Env := ⟨false, some 100, [0], fun _ f => f, fun _ => Except.ok 1⟩

/-- Concrete valid request whose initial resolution equals its minimum. -/
def reqFit : Request := ⟨1, (32, 32), 8, 2, (32, 32), true, true, true⟩

/-- The event list of the run of compress_gif on envFit and reqFit. -/
def evsFit : List Event :=
  [Event.encodeTemp [0], Event.progressMsg 1 (32, 32) 10, Event.previewTemp,
   Event.renameToDest, Event.logSuccess, Event.clearRunning, Event.finishCb]

/-! Helper lemmas about the frame loop. -/

lemma framesLoop_zero_cons {α : Type} (proc : α → α) (n : Nat) (f : α) (rest : List α) :
    framesLoop proc n 0 (f :: rest) = proc f :: framesLoop proc n 1 rest := by
  simp [framesLoop, Nat.zero_mod]

lemma framesLoop_ne_nil {α : Type} (proc : α → α) (n : Nat) (l : List α) (h : l ≠ []) :
    framesLoop proc n 0 l ≠ [] := by
  cases l with
  | nil => exact absurd rfl h
  | cons f rest => simp [framesLoop_zero_cons]

lemma framesLoop_enumFrom {α : Type} (proc : α → α) (n : Nat) (l : List α) :
    ∀ k, framesLoop proc n k l =
      ((List.enumFrom k l).filter (fun p => p.1 % n == 0)).map (fun p => proc p.2) := by
  induction l with
  | nil => intro k; simp [framesLoop]
  | cons f rest ih =>
    intro k
    by_cases h : k % n = 0
    · simp [framesLoop, h, List.enumFrom_cons, List.filter_cons, ih]
    · simp [framesLoop, h, List.enumFrom_cons, List.filter_cons, ih]

lemma strideN_pos (origFps curFps : ℚ) : 1 ≤ strideN origFps curFps := by
  have h : (1 : ℤ) ≤ max 1 (pyRound (origFps / curFps)) := le_max_left _ _
  unfold strideN
  omega

/-! Helper lemmas about the next-parameter policy. -/

lemma nextParams_shrink_iff (res minRes : Res) (step : Nat) (fps fstep : ℚ) (r2 : Res) :
    nextParams res minRes step fps fstep = NextStep.shrink r2 ↔
      (minRes.1 < res.1 ∧ minRes.2 < res.2) ∧
        r2 = (max minRes.1 (res.1 - step), max minRes.2 (res.2 - step)) := by
  unfold nextParams
  split_ifs with h1 h2 <;> simp_all [eq_comm]

lemma nextParams_slow_iff (res minRes : Res) (step : Nat) (fps fstep : ℚ) (f2 : ℚ) :
    nextParams res minRes step fps fstep = NextStep.slow f2 ↔
      ¬(minRes.1 < res.1 ∧ minRes.2 < res.2) ∧ fstep < fps ∧ f2 = fps - fstep := by
  unfold nextParams
  split_ifs with h1 h2 <;> simp_all [eq_comm]

lemma nextParams_exhausted_iff (res minRes : Res) (step : Nat) (fps fstep : ℚ) :
    nextParams res minRes step fps fstep = NextStep.exhausted ↔
      ¬(minRes.1 < res.1 ∧ minRes.2 < res.2) ∧ fps ≤ fstep := by
  unfold nextParams
  split_ifs with h1 h2 <;> simp_all [not_lt]

/-! Forward computation lemmas for one loop iteration. -/

lemma loopBody_cancel (env : Env) (req : Request) (origFps : ℚ) (runningAt : Nat → Bool)
    (k : Nat) (res : Res) (fps : ℚ) (hrun : runningAt k = false) :
    loopBody env req origFps runningAt k res fps = StepRes.stop [] LoopExit.cancelled := by
  simp [loopBody, hrun]

lemma loopBody_success (env : Env) (req : Request) (origFps : ℚ) (runningAt : Nat → Bool)
    (k : Nat) (res : Res) (fps : ℚ) (f0 : Nat) (fs : List Nat) (size : Nat)
    (hrun : runningAt k = true)
    (hsel : framesLoop (env.procF res) (strideN origFps fps) 0 env.frames = f0 :: fs)
    (hok : env.encodeSize (f0 :: fs) = Except.ok size)
    (hsize : size ≤ req.maxSizeBytes) :
    loopBody env req origFps runningAt k res fps =
      StepRes.stop (iterEvs req size res fps (f0 :: fs) ++ Event.renameToDest ::
        (if req.hasLog then [Event.logSuccess] else [])) LoopExit.success := by
  simp [loopBody, hrun, hsel, hok, hsize]

lemma loopBody_shrink (env : Env) (req : Request) (origFps : ℚ) (runningAt : Nat → Bool)
    (k : Nat) (res : Res) (fps : ℚ) (f0 : Nat) (fs : List Nat) (size : Nat) (r2 : Res)
    (hrun : runningAt k = true)
    (hsel : framesLoop (env.procF res) (strideN origFps fps) 0 env.frames = f0 :: fs)
    (hok : env.encodeSize (f0 :: fs) = Except.ok size)
    (hsize : req.maxSizeBytes < size)
    (hnp : nextParams res req.minResolution req.resolutionStep fps req.fpsReductionStep =
      NextStep.shrink r2) :
    loopBody env req origFps runningAt k res fps =
      StepRes.next r2 fps (iterEvs req size res fps (f0 :: fs)) := by
  simp [loopBody, hrun, hsel, hok, not_le.mpr hsize, hnp]

lemma loopBody_slow (env : Env) (req : Request) (origFps : ℚ) (runningAt : Nat → Bool)
    (k : Nat) (res : Res) (fps : ℚ) (f0 : Nat) (fs : List Nat) (size : Nat) (f2 : ℚ)
    (hrun : runningAt k = true)
    (hsel : framesLoop (env.procF res) (strideN origFps fps) 0 env.frames = f0 :: fs)
    (hok : env.encodeSize (f0 :: fs) = Except.ok size)
    (hsize : req.maxSizeBytes < size)
    (hnp : nextParams res req.minResolution req.resolutionStep fps req.fpsReductionStep =
      NextStep.slow f2) :
    loopBody env req origFps runningAt k res fps =
      StepRes.next res f2 (iterEvs req size res fps (f0 :: fs)) := by
  simp [loopBody, hrun, hsel, hok, not_le.mpr hsize, hnp]

lemma loopBody_exhaust (env : Env) (req : Request) (origFps : ℚ) (runningAt : Nat → Bool)
    (k : Nat) (res : Res) (fps : ℚ) (f0 : Nat) (fs : List Nat) (size : Nat)
    (hrun : runningAt k = true)
    (hsel : framesLoop (env.procF res) (strideN origFps fps) 0 env.frames = f0 :: fs)
    (hok : env.encodeSize (f0 :: fs) = Except.ok size)
    (hsize : req.maxSizeBytes < size)
    (hnp : nextParams res req.minResolution req.resolutionStep fps req.fpsReductionStep =
      NextStep.exhausted) :
    loopBody env req origFps runningAt k res fps =
      StepRes.stop (iterEvs req size res fps (f0 :: fs) ++
        (if req.hasLog then [Event.logExhaust] else [])) LoopExit.exhausted := by
  simp [loopBody, hrun, hsel, hok, not_le.mpr hsize, hnp]

/-- Inversion of one iteration that stopped the loop. -/
lemma loopBody_stop_inv (env : Env) (req : Request) (origFps : ℚ) (runningAt : Nat → Bool)
    (k : Nat) (res : Res) (fps : ℚ) (evs : List Event) (ex : LoopExit)
    (h : loopBody env req origFps runningAt k res fps = StepRes.stop evs ex) :
    (evs = [] ∧ (ex = LoopExit.cancelled ∨ ex = LoopExit.errored)) ∨
    (∃ size sel, ex = LoopExit.success ∧ size ≤ req.maxSizeBytes ∧
      evs = iterEvs req size res fps sel ++ Event.renameToDest ::
        (if req.hasLog then [Event.logSuccess] else [])) ∨
    (∃ size sel, ex = LoopExit.exhausted ∧ req.maxSizeBytes < size ∧
      nextParams res req.minResolution req.resolutionStep fps req.fpsReductionStep =
        NextStep.exhausted ∧
      evs = iterEvs req size res fps sel ++ (if req.hasLog then [Event.logExhaust] else [])) := by
  unfold loopBody at h
  split at h
  · split at h
    · cases h; exact Or.inl ⟨rfl, Or.inr rfl⟩
    · split at h
      · cases h; exact Or.inl ⟨rfl, Or.inr rfl⟩
      · split at h
        · cases h
          right; left
          exact ⟨_, _, rfl, by assumption, rfl⟩
        · split at h
          · cases h
          · cases h
          · cases h
            right; right
            refine ⟨_, _, rfl, by omega, by assumption, rfl⟩
  · cases h; exact Or.inl ⟨rfl, Or.inl rfl⟩

/-- Inversion of one iteration that continued the loop. -/
lemma loopBody_next_inv (env : Env) (req : Request) (origFps : ℚ) (runningAt : Nat → Bool)
    (k : Nat) (res : Res) (fps : ℚ) (r2 : Res) (f2 : ℚ) (evs : List Event)
    (h : loopBody env req origFps runningAt k res fps = StepRes.next r2 f2 evs) :
    ∃ size sel, req.maxSizeBytes < size ∧ evs = iterEvs req size res fps sel ∧
      ((nextParams res req.minResolution req.resolutionStep fps req.fpsReductionStep =
          NextStep.shrink r2 ∧ f2 = fps) ∨
       (nextParams res req.minResolution req.resolutionStep fps req.fpsReductionStep =
          NextStep.slow f2 ∧ r2 = res)) := by
  unfold loopBody at h
  split at h
  · split at h
    · cases h
    · split at h
      · cases h
      · split at h
        · cases h
        · split at h
          · cases h
            exact ⟨_, _, by omega, rfl, Or.inl ⟨by assumption, rfl⟩⟩
          · cases h
            exact ⟨_, _, by omega, rfl, Or.inr ⟨by assumption, rfl⟩⟩
          · cases h
  · cases h

/-- Unfolding of the fuelled loop at a successor fuel value. -/
lemma iterate_succ (env : Env) (req : Request) (origFps : ℚ) (runningAt : Nat → Bool)
    (n k : Nat) (res : Res) (fps : ℚ) :
    iterate env req origFps runningAt (n + 1) k res fps =
      match loopBody env req origFps runningAt k res fps with
      | StepRes.stop evs ex => some (evs, ex)
      | StepRes.next r2 f2 evs =>
        (iterate env req origFps runningAt n (k + 1) r2 f2).map
          (fun p => (evs ++ p.1, p.2)) := rfl

/-! Event-list lemmas. -/

lemma not_mem_opt (b : Bool) (e e' : Event) (hne : e' ≠ e) :
    e' ∉ (if b then [e] else []) := by
  cases b <;> simp [hne]

lemma mem_iterEvs (req : Request) (size : Nat) (res : Res) (fps : ℚ) (sel : List Nat)
    (e : Event) (h : e ∈ iterEvs req size res fps sel) :
    e = Event.encodeTemp sel ∨ e = Event.progressMsg size res fps ∨ e = Event.previewTemp := by
  unfold iterEvs at h
  cases hL : req.hasLog <;> cases hP : req.hasPreview <;> rw [hL, hP] at h <;>
    simp at h <;> tauto

lemma paramTrace_iterEvs (req : Request) (size : Nat) (res : Res) (fps : ℚ) (sel : List Nat) :
    paramTrace (iterEvs req size res fps sel) =
      if req.hasLog then [(res, fps)] else [] := by
  unfold iterEvs paramTrace
  cases hL : req.hasLog <;> cases hP : req.hasPreview <;> simp [paramsOf]

lemma paramTrace_append (l1 l2 : List Event) :
    paramTrace (l1 ++ l2) = paramTrace l1 ++ paramTrace l2 := by
  simp [paramTrace]

lemma paramTrace_opt (b : Bool) (e : Event) (he : paramsOf e = none) :
    paramTrace (if b then [e] else []) = [] := by
  cases b <;> simp [paramTrace, he]

/-- The events of a stopped iteration carry at most one progress event,
reporting the iteration's own parameters. -/
lemma loopBody_stop_trace (env : Env) (req : Request) (origFps : ℚ) (runningAt : Nat → Bool)
    (k : Nat) (res : Res) (fps : ℚ) (evs : List Event) (ex : LoopExit)
    (h : loopBody env req origFps runningAt k res fps = StepRes.stop evs ex) :
    paramTrace evs = [] ∨ paramTrace evs = [(res, fps)] := by
  rcases loopBody_stop_inv env req origFps runningAt k res fps evs ex h with
    ⟨hnil, _⟩ | ⟨size, sel, _, _, hevs⟩ | ⟨size, sel, _, _, _, hevs⟩
  · left; rw [hnil]; rfl
  · subst hevs
    rw [paramTrace_append, paramTrace_iterEvs]
    cases hL : req.hasLog <;>
      simp [paramTrace, paramsOf, paramTrace_opt, hL]
  · subst hevs
    rw [paramTrace_append, paramTrace_iterEvs]
    cases hL : req.hasLog <;>
      simp [paramTrace, paramsOf, paramTrace_opt, hL]

/-- The events of a continuing iteration carry exactly one progress event
when a log callback was supplied, and none otherwise. -/
lemma loopBody_next_trace (env : Env) (req : Request) (origFps : ℚ) (runningAt : Nat → Bool)
    (k : Nat) (res : Res) (fps : ℚ) (r2 : Res) (f2 : ℚ) (evs : List Event)
    (h : loopBody env req origFps runningAt k res fps = StepRes.next r2 f2 evs) :
    paramTrace evs = if req.hasLog then [(res, fps)] else [] := by
  rcases loopBody_next_inv env req origFps runningAt k res fps r2 f2 evs h with
    ⟨size, sel, _, hevs, _⟩
  subst hevs
  exact paramTrace_iterEvs req size res fps sel

/-- Unfolding of the fuelled loop when the iteration stops. -/
lemma iterate_succ_stop (env : Env) (req : Request) (origFps : ℚ) (runningAt : Nat → Bool)
    (n k : Nat) (res : Res) (fps : ℚ) (evs : List Event) (ex : LoopExit)
    (hb : loopBody env req origFps runningAt k res fps = StepRes.stop evs ex) :
    iterate env req origFps runningAt (n + 1) k res fps = some (evs, ex) := by
  rw [iterate_succ, hb]

/-- Unfolding of the fuelled loop when the iteration continues. -/
lemma iterate_succ_next (env : Env) (req : Request) (origFps : ℚ) (runningAt : Nat → Bool)
    (n k : Nat) (res : Res) (fps : ℚ) (r2 : Res) (f2 : ℚ) (evs : List Event)
    (hb : loopBody env req origFps runningAt k res fps = StepRes.next r2 f2 evs) :
    iterate env req origFps runningAt (n + 1) k res fps =
      (iterate env req origFps runningAt n (k + 1) r2 f2).map
        (fun p => (evs ++ p.1, p.2)) := by
  rw [iterate_succ, hb]

/-- Inversion of a successful loop unfolding: either the first iteration
stopped with exactly these events, or it continued and the rest of the
run used one unit less fuel. -/
lemma iterate_succ_inv (env : Env) (req : Request) (origFps : ℚ) (runningAt : Nat → Bool)
    (n k : Nat) (res : Res) (fps : ℚ) (evs : List Event) (ex : LoopExit)
    (h : iterate env req origFps runningAt (n + 1) k res fps = some (evs, ex)) :
    (loopBody env req origFps runningAt k res fps = StepRes.stop evs ex) ∨
    (∃ r2 f2 evs0 evs1,
      loopBody env req origFps runningAt k res fps = StepRes.next r2 f2 evs0 ∧
      iterate env req origFps runningAt n (k + 1) r2 f2 = some (evs1, ex) ∧
      evs = evs0 ++ evs1) := by
  rcases hb : loopBody env req origFps runningAt k res fps with ⟨evs0, ex0⟩ | ⟨r2, f2, evs0⟩
  · rw [iterate_succ_stop env req origFps runningAt n k res fps evs0 ex0 hb] at h
    injection h with h'
    injection h' with h1 h2
    subst h1; subst h2
    exact Or.inl rfl
  · rw [iterate_succ_next env req origFps runningAt n k res fps r2 f2 evs0 hb] at h
    rcases hrec : iterate env req origFps runningAt n (k + 1) r2 f2 with _ | ⟨evs1, ex1⟩
    · rw [hrec] at h; cases h
    · rw [hrec] at h
      simp only [Option.map_some'] at h
      injection h with h'
      injection h' with h1 h2
      subst h1; subst h2
      exact Or.inr ⟨r2, f2, evs0, evs1, rfl, hrec, rfl⟩

/-! Inductive lemmas over the fuelled loop. -/

/-- The loop itself never emits the finally-block events: the running
flag is not cleared and the finish callback is not invoked inside the
while-loop. -/
lemma iterate_no_finally (env : Env) (req : Request) (origFps : ℚ) (runningAt : Nat → Bool) :
    ∀ (fuel k : Nat) (res : Res) (fps : ℚ) (evs : List Event) (ex : LoopExit),
      iterate env req origFps runningAt fuel k res fps = some (evs, ex) →
      Event.clearRunning ∉ evs ∧ Event.finishCb ∉ evs := by
  intro fuel
  induction fuel with
  | zero => intro k res fps evs ex h; cases h
  | succ n ih =>
    intro k res fps evs ex h
    rcases iterate_succ_inv env req origFps runningAt n k res fps evs ex h with
      hb | ⟨r2, f2, evs0, evs1, hb, hrec, rfl⟩
    · rcases loopBody_stop_inv env req origFps runningAt k res fps evs ex hb with
        ⟨hnil, _⟩ | ⟨size, sel, _, _, hevs⟩ | ⟨size, sel, _, _, _, hevs⟩
      · subst hnil; simp
      · subst hevs
        constructor <;> intro hmem <;>
          rcases List.mem_append.mp hmem with hmem1 | hmem1
        · rcases mem_iterEvs req size res fps sel _ hmem1 with h1 | h1 | h1 <;> cases h1
        · rcases List.mem_cons.mp hmem1 with h1 | h1
          · cases h1
          · exact not_mem_opt req.hasLog Event.logSuccess Event.clearRunning (by decide) h1
        · rcases mem_iterEvs req size res fps sel _ hmem1 with h1 | h1 | h1 <;> cases h1
        · rcases List.mem_cons.mp hmem1 with h1 | h1
          · cases h1
          · exact not_mem_opt req.hasLog Event.logSuccess Event.finishCb (by decide) h1
      · subst hevs
        constructor <;> intro hmem <;>
          rcases List.mem_append.mp hmem with hmem1 | hmem1
        · rcases mem_iterEvs req size res fps sel _ hmem1 with h1 | h1 | h1 <;> cases h1
        · exact not_mem_opt req.hasLog Event.logExhaust Event.clearRunning (by decide) hmem1
        · rcases mem_iterEvs req size res fps sel _ hmem1 with h1 | h1 | h1 <;> cases h1
        · exact not_mem_opt req.hasLog Event.logExhaust Event.finishCb (by decide) hmem1
    · have hrec2 := ih (k + 1) r2 f2 evs1 ex hrec
      rcases loopBody_next_inv env req origFps runningAt k res fps r2 f2 evs0 hb with
        ⟨size, sel, _, hevs, _⟩
      subst hevs
      constructor <;> intro hmem <;>
        rcases List.mem_append.mp hmem with hmem1 | hmem1
      · rcases mem_iterEvs req size res fps sel _ hmem1 with h1 | h1 | h1 <;> cases h1
      · exact hrec2.1 hmem1
      · rcases mem_iterEvs req size res fps sel _ hmem1 with h1 | h1 | h1 <;> cases h1
      · exact hrec2.2 hmem1

lemma countP_opt (b : Bool) (e : Event) (p : Event → Bool) :
    (if b then [e] else []).countP p = if b then (if p e then 1 else 0) else 0 := by
  cases b <;> simp [List.countP_cons]

lemma renameCount_iterEvs (req : Request) (size : Nat) (res : Res) (fps : ℚ)
    (sel : List Nat) :
    (iterEvs req size res fps sel).countP (fun e => decide (e = Event.renameToDest)) = 0 := by
  apply List.countP_eq_zero.mpr
  intro e he
  rcases mem_iterEvs req size res fps sel e he with rfl | rfl | rfl <;> simp

/-- The loop performs the rename onto the destination exactly once when it
exits successfully, and never otherwise. -/
lemma iterate_rename_count (env : Env) (req : Request) (origFps : ℚ)
    (runningAt : Nat → Bool) :
    ∀ (fuel k : Nat) (res : Res) (fps : ℚ) (evs : List Event) (ex : LoopExit),
      iterate env req origFps runningAt fuel k res fps = some (evs, ex) →
      evs.countP (fun e => decide (e = Event.renameToDest)) =
        if ex = LoopExit.success then 1 else 0 := by
  intro fuel
  induction fuel with
  | zero => intro k res fps evs ex h; cases h
  | succ n ih =>
    intro k res fps evs ex h
    rcases iterate_succ_inv env req origFps runningAt n k res fps evs ex h with
      hb | ⟨r2, f2, evs0, evs1, hb, hrec, rfl⟩
    · rcases loopBody_stop_inv env req origFps runningAt k res fps evs ex hb with
        ⟨hnil, hex⟩ | ⟨size, sel, hex, _, hevs⟩ | ⟨size, sel, hex, _, _, hevs⟩
      · subst hnil
        rcases hex with rfl | rfl <;> simp
      · subst hevs; subst hex
        simp [List.countP_append, List.countP_cons, renameCount_iterEvs, countP_opt]
      · subst hevs; subst hex
        simp [List.countP_append, renameCount_iterEvs, countP_opt]
    · rcases loopBody_next_inv env req origFps runningAt k res fps r2 f2 evs0 hb with
        ⟨size, sel, _, hevs, _⟩
      subst hevs
      rw [List.countP_append, renameCount_iterEvs, ih (k + 1) r2 f2 evs1 ex hrec]
      exact Nat.zero_add _

lemma paramTrace_cons_none (e : Event) (l : List Event) (he : paramsOf e = none) :
    paramTrace (e :: l) = paramTrace l := by
  simp [paramTrace, he]

/-- Without a log callback, the loop emits no progress events at all. -/
lemma iterate_trace_nil (env : Env) (req : Request) (origFps : ℚ)
    (runningAt : Nat → Bool) (hlog : req.hasLog = false) :
    ∀ (fuel k : Nat) (res : Res) (fps : ℚ) (evs : List Event) (ex : LoopExit),
      iterate env req origFps runningAt fuel k res fps = some (evs, ex) →
      paramTrace evs = [] := by
  intro fuel
  induction fuel with
  | zero => intro k res fps evs ex h; cases h
  | succ n ih =>
    intro k res fps evs ex h
    rcases iterate_succ_inv env req origFps runningAt n k res fps evs ex h with
      hb | ⟨r2, f2, evs0, evs1, hb, hrec, rfl⟩
    · rcases loopBody_stop_inv env req origFps runningAt k res fps evs ex hb with
        ⟨hnil, _⟩ | ⟨size, sel, _, _, hevs⟩ | ⟨size, sel, _, _, _, hevs⟩
      · subst hnil; rfl
      · subst hevs
        rw [paramTrace_append, paramTrace_iterEvs, hlog,
          paramTrace_cons_none Event.renameToDest _ rfl]
        simp [paramTrace]
      · subst hevs
        rw [paramTrace_append, paramTrace_iterEvs, hlog]
        simp [paramTrace]
    · rw [paramTrace_append,
        loopBody_next_trace env req origFps runningAt k res fps r2 f2 evs0 hb, hlog,
        ih (k + 1) r2 f2 evs1 ex hrec]
      simp

/-- With a log callback, the progress trace of the loop run from given
parameters is either empty or headed by exactly those parameters. -/
lemma iterate_trace_head (env : Env) (req : Request) (origFps : ℚ)
    (runningAt : Nat → Bool) (hlog : req.hasLog = true)
    (fuel k : Nat) (res : Res) (fps : ℚ) (evs : List Event) (ex : LoopExit)
    (h : iterate env req origFps runningAt fuel k res fps = some (evs, ex)) :
    paramTrace evs = [] ∨ ∃ t, paramTrace evs = (res, fps) :: t := by
  cases fuel with
  | zero => cases h
  | succ n =>
    rcases iterate_succ_inv env req origFps runningAt n k res fps evs ex h with
      hb | ⟨r2, f2, evs0, evs1, hb, hrec, rfl⟩
    · rcases loopBody_stop_trace env req origFps runningAt k res fps evs ex hb with
        htr | htr
      · exact Or.inl htr
      · exact Or.inr ⟨[], htr⟩
    · rw [paramTrace_append,
        loopBody_next_trace env req origFps runningAt k res fps r2 f2 evs0 hb, hlog]
      exact Or.inr ⟨paramTrace evs1, rfl⟩

/-- Once the resolution-shrinking condition of line 56 is false it stays
false: the resolution reported by every later progress event is frozen. -/
lemma iterate_freeze (env : Env) (req : Request) (origFps : ℚ)
    (runningAt : Nat → Bool) :
    ∀ (fuel k : Nat) (res : Res) (fps : ℚ) (evs : List Event) (ex : LoopExit),
      iterate env req origFps runningAt fuel k res fps = some (evs, ex) →
      ¬(req.minResolution.1 < res.1 ∧ req.minResolution.2 < res.2) →
      ∀ p ∈ paramTrace evs, p.1 = res := by
  intro fuel
  induction fuel with
  | zero => intro k res fps evs ex h; cases h
  | succ n ih =>
    intro k res fps evs ex h hcond p hp
    rcases iterate_succ_inv env req origFps runningAt n k res fps evs ex h with
      hb | ⟨r2, f2, evs0, evs1, hb, hrec, rfl⟩
    · rcases loopBody_stop_trace env req origFps runningAt k res fps evs ex hb with
        htr | htr <;> rw [htr] at hp
      · cases hp
      · rcases List.mem_singleton.mp hp with rfl; rfl
    · rw [paramTrace_append] at hp
      rcases loopBody_next_inv env req origFps runningAt k res fps r2 f2 evs0 hb with
        ⟨size, sel, _, hevs, hcase⟩
      rcases List.mem_append.mp hp with hp1 | hp1
      · subst hevs
        rw [paramTrace_iterEvs] at hp1
        cases hL : req.hasLog <;> rw [hL] at hp1
        · cases hp1
        · rcases List.mem_singleton.mp hp1 with rfl; rfl
      · rcases hcase with ⟨hnp, hf⟩ | ⟨hnp, hr⟩
        · exact absurd ((nextParams_shrink_iff _ _ _ _ _ _).mp hnp).1 hcond
        · rw [hr] at hrec
          exact ih (k + 1) res f2 evs1 ex hrec hcond p hp1

lemma getElem?_singleton_inv {α : Type} (x a : α) (i : Nat) (h : [x][i]? = some a) :
    i = 0 ∧ a = x := by
  cases i with
  | zero =>
    rw [List.getElem?_cons_zero] at h
    injection h with h
    exact ⟨rfl, h.symm⟩
  | succ m =>
    rw [List.getElem?_cons_succ, List.getElem?_nil] at h
    cases h

/-- Consecutive progress events report non-increasing parameters: both
resolution axes and the frame rate never grow from one event to the next. -/
lemma iterate_desc (env : Env) (req : Request) (origFps : ℚ) (runningAt : Nat → Bool)
    (hfstep : 0 < req.fpsReductionStep) :
    ∀ (fuel k : Nat) (res : Res) (fps : ℚ) (evs : List Event) (ex : LoopExit),
      iterate env req origFps runningAt fuel k res fps = some (evs, ex) →
      ∀ i a b, (paramTrace evs)[i]? = some a → (paramTrace evs)[i + 1]? = some b →
        b.1.1 ≤ a.1.1 ∧ b.1.2 ≤ a.1.2 ∧ b.2 ≤ a.2 := by
  intro fuel
  induction fuel with
  | zero => intro k res fps evs ex h; cases h
  | succ n ih =>
    intro k res fps evs ex h i a b ha hb2
    rcases iterate_succ_inv env req origFps runningAt n k res fps evs ex h with
      hb | ⟨r2, f2, evs0, evs1, hb, hrec, rfl⟩
    · rcases loopBody_stop_trace env req origFps runningAt k res fps evs ex hb with
        htr | htr <;> rw [htr] at ha hb2
      · rw [List.getElem?_nil] at ha; cases ha
      · rcases getElem?_singleton_inv _ _ _ hb2 with ⟨hi1, _⟩
        cases hi1
    · have htr0 := loopBody_next_trace env req origFps runningAt k res fps r2 f2 evs0 hb
      cases hL : req.hasLog
      · have htr0' : paramTrace evs0 = [] := by rw [htr0, hL]; simp
        rw [paramTrace_append, htr0', List.nil_append] at ha hb2
        exact ih (k + 1) r2 f2 evs1 ex hrec i a b ha hb2
      · have htr0' : paramTrace evs0 = [(res, fps)] := by rw [htr0, hL]; simp
        rw [paramTrace_append, htr0', List.singleton_append] at ha hb2
        cases i with
        | zero =>
          rw [List.getElem?_cons_zero] at ha
          injection ha with ha
          subst ha
          rw [List.getElem?_cons_succ] at hb2
          rcases iterate_trace_head env req origFps runningAt hL n (k + 1) r2 f2 evs1 ex hrec
            with htr1 | ⟨t, htr1⟩
          · rw [htr1, List.getElem?_nil] at hb2; cases hb2
          · rw [htr1, List.getElem?_cons_zero] at hb2
            injection hb2 with hb2
            subst hb2
            rcases loopBody_next_inv env req origFps runningAt k res fps r2 f2 evs0 hb with
              ⟨size, sel, _, _, ⟨hnp, hf⟩ | ⟨hnp, hr⟩⟩
            · rcases (nextParams_shrink_iff _ _ _ _ _ _).mp hnp with ⟨⟨h1, h2⟩, hr2⟩
              subst hf
              refine ⟨?_, ?_, le_refl _⟩ <;> rw [hr2] <;> simp <;> omega
            · rcases (nextParams_slow_iff _ _ _ _ _ _).mp hnp with ⟨_, hlt, hf2⟩
              rw [hr, hf2]
              refine ⟨le_refl _, le_refl _, ?_⟩
              show fps - req.fpsReductionStep ≤ fps
              linarith
        | succ m =>
          rw [List.getElem?_cons_succ] at ha hb2
          exact ih (k + 1) r2 f2 evs1 ex hrec m a b ha hb2

/-- Two-phase shape of a run's progress trace: there is a cut position
such that every event up to and including the cut reports the starting
frame rate, and every event from the cut on reports one common
resolution. -/
lemma iterate_shape (env : Env) (req : Request) (origFps : ℚ) (runningAt : Nat → Bool)
    (hlog : req.hasLog = true) :
    ∀ (fuel k : Nat) (res : Res) (fps : ℚ) (evs : List Event) (ex : LoopExit),
      iterate env req origFps runningAt fuel k res fps = some (evs, ex) →
      ∃ (n0 : Nat) (resC : Res),
        (∀ (i : Nat) (a : Res × ℚ), (paramTrace evs)[i]? = some a → i ≤ n0 → a.2 = fps) ∧
        (∀ (i : Nat) (a : Res × ℚ), (paramTrace evs)[i]? = some a → n0 ≤ i → a.1 = resC) := by
  intro fuel
  induction fuel with
  | zero => intro k res fps evs ex h; cases h
  | succ n ih =>
    intro k res fps evs ex h
    rcases iterate_succ_inv env req origFps runningAt n k res fps evs ex h with
      hb | ⟨r2, f2, evs0, evs1, hb, hrec, rfl⟩
    · refine ⟨0, res, ?_, ?_⟩ <;> intro i a ha hi <;>
        rcases loopBody_stop_trace env req origFps runningAt k res fps evs ex hb with
          htr | htr <;> rw [htr] at ha
      · rw [List.getElem?_nil] at ha; cases ha
      · rcases getElem?_singleton_inv _ _ _ ha with ⟨_, rfl⟩; rfl
      · rw [List.getElem?_nil] at ha; cases ha
      · rcases getElem?_singleton_inv _ _ _ ha with ⟨_, rfl⟩; rfl
    · have htr0 := loopBody_next_trace env req origFps runningAt k res fps r2 f2 evs0 hb
      have htr0' : paramTrace evs0 = [(res, fps)] := by rw [htr0, hlog]; simp
      rcases loopBody_next_inv env req origFps runningAt k res fps r2 f2 evs0 hb with
        ⟨size, sel, _, _, ⟨hnp, hf⟩ | ⟨hnp, hr⟩⟩
      · rw [hf] at hrec
        obtain ⟨n0, resC, hp1, hp2⟩ := ih (k + 1) r2 fps evs1 ex hrec
        refine ⟨n0 + 1, resC, ?_, ?_⟩ <;> intro i a ha hi <;>
          rw [paramTrace_append, htr0', List.singleton_append] at ha
        · cases i with
          | zero =>
            rw [List.getElem?_cons_zero] at ha
            injection ha with ha
            subst ha
            rfl
          | succ m =>
            rw [List.getElem?_cons_succ] at ha
            exact hp1 m a ha (by omega)
        · cases i with
          | zero => omega
          | succ m =>
            rw [List.getElem?_cons_succ] at ha
            exact hp2 m a ha (by omega)
      · rw [hr] at hrec
        have hcond : ¬(req.minResolution.1 < res.1 ∧ req.minResolution.2 < res.2) :=
          ((nextParams_slow_iff _ _ _ _ _ _).mp hnp).1
        have hfr := iterate_freeze env req origFps runningAt n (k + 1) res f2 evs1 ex hrec hcond
        refine ⟨0, res, ?_, ?_⟩ <;> intro i a ha hi <;>
          rw [paramTrace_append, htr0', List.singleton_append] at ha
        · have hi0 : i = 0 := by omega
          subst hi0
          rw [List.getElem?_cons_zero] at ha
          injection ha with ha
          subst ha
          rfl
        · cases i with
          | zero =>
            rw [List.getElem?_cons_zero] at ha
            injection ha with ha
            subst ha
            rfl
          | succ m =>
            rw [List.getElem?_cons_succ] at ha
            exact hfr a (List.getElem?_mem ha)

/-! Termination of the while-loop. -/

lemma fpsIters_sub (fps fstep : ℚ) (h0 : 0 < fstep) (h : fstep < fps) :
    fpsIters (fps - fstep) fstep + 1 = fpsIters fps fstep := by
  unfold fpsIters
  have hdiv : (fps - fstep) / fstep = fps / fstep - 1 := by
    rw [sub_div, div_self (ne_of_gt h0)]
  have h2 : (1 : ℤ) < ⌈fps / fstep⌉ := by
    rw [Int.lt_ceil]
    exact_mod_cast (one_lt_div h0).mpr h
  rw [hdiv, Int.ceil_sub_one]
  omega

lemma loopMeasure_shrink (req : Request) (res : Res) (fps : ℚ)
    (hstep : 0 < req.resolutionStep)
    (h1 : req.minResolution.1 < res.1) (h2 : req.minResolution.2 < res.2) :
    loopMeasure req (max req.minResolution.1 (res.1 - req.resolutionStep),
                     max req.minResolution.2 (res.2 - req.resolutionStep)) fps
      < loopMeasure req res fps := by
  unfold loopMeasure
  have h3 : max req.minResolution.1 (res.1 - req.resolutionStep) - req.minResolution.1
      < res.1 - req.minResolution.1 := by omega
  have h4 : max req.minResolution.2 (res.2 - req.resolutionStep) - req.minResolution.2
      < res.2 - req.minResolution.2 := by omega
  omega

lemma loopMeasure_slow (req : Request) (res : Res) (fps : ℚ)
    (h0 : 0 < req.fpsReductionStep) (h : req.fpsReductionStep < fps) :
    loopMeasure req res (fps - req.fpsReductionStep) < loopMeasure req res fps := by
  unfold loopMeasure
  have h1 := fpsIters_sub fps req.fpsReductionStep h0 h
  omega

/-- When no candidate ever fits, the loop always reaches exhaustion
within the fuel given by its measure. -/
lemma iterate_exhausts (env : Env) (req : Request) (origFps : ℚ) (runningAt : Nat → Bool)
    (hstep : 0 < req.resolutionStep) (hfstep : 0 < req.fpsReductionStep)
    (hne : env.frames ≠ [])
    (hbig : ∀ l, ∃ s, env.encodeSize l = Except.ok s ∧ req.maxSizeBytes < s)
    (hrun : ∀ k, runningAt k = true) :
    ∀ (fuel : Nat) (res : Res) (fps : ℚ) (k : Nat), loopMeasure req res fps < fuel →
      ∃ evs, iterate env req origFps runningAt fuel k res fps =
        some (evs, LoopExit.exhausted) := by
  intro fuel
  induction fuel with
  | zero => intro res fps k h; omega
  | succ n ih =>
    intro res fps k h
    obtain ⟨f0, fs, hsel⟩ : ∃ f0 fs,
        framesLoop (env.procF res) (strideN origFps fps) 0 env.frames = f0 :: fs := by
      rcases hl : framesLoop (env.procF res) (strideN origFps fps) 0 env.frames with _ | ⟨f0, fs⟩
      · exact absurd hl (framesLoop_ne_nil _ _ _ hne)
      · exact ⟨f0, fs, rfl⟩
    obtain ⟨size, hok, hbigs⟩ := hbig (f0 :: fs)
    rcases hnp : nextParams res req.minResolution req.resolutionStep fps req.fpsReductionStep
      with ⟨r2⟩ | ⟨f2⟩ | _
    · rcases (nextParams_shrink_iff _ _ _ _ _ _).mp hnp with ⟨⟨h1, h2⟩, hr2⟩
      have hdec : loopMeasure req r2 fps < n := by
        have := loopMeasure_shrink req res fps hstep h1 h2
        rw [hr2]
        omega
      obtain ⟨evs2, hrec⟩ := ih r2 fps (k + 1) hdec
      refine ⟨iterEvs req size res fps (f0 :: fs) ++ evs2, ?_⟩
      rw [iterate_succ_next env req origFps runningAt n k res fps r2 fps
          (iterEvs req size res fps (f0 :: fs))
          (loopBody_shrink env req origFps runningAt k res fps f0 fs size r2
            (hrun k) hsel hok hbigs hnp), hrec]
      rfl
    · rcases (nextParams_slow_iff _ _ _ _ _ _).mp hnp with ⟨hcond, hlt, hf2⟩
      have hdec : loopMeasure req res f2 < n := by
        have := loopMeasure_slow req res fps hfstep hlt
        rw [hf2]
        omega
      obtain ⟨evs2, hrec⟩ := ih res f2 (k + 1) hdec
      refine ⟨iterEvs req size res fps (f0 :: fs) ++ evs2, ?_⟩
      rw [iterate_succ_next env req origFps runningAt n k res fps res f2
          (iterEvs req size res fps (f0 :: fs))
          (loopBody_slow env req origFps runningAt k res fps f0 fs size f2
            (hrun k) hsel hok hbigs hnp), hrec]
      rfl
    · refine ⟨iterEvs req size res fps (f0 :: fs) ++
        (if req.hasLog then [Event.logExhaust] else []), ?_⟩
      exact iterate_succ_stop env req origFps runningAt n k res fps _ _
        (loopBody_exhaust env req origFps runningAt k res fps f0 fs size
          (hrun k) hsel hok hbigs hnp)

/-! Lemmas about the whole of compress_gif. -/

/-- Inversion of a completed run: either opening the source failed, or
the while-loop ran and the final events are the loop events followed by
the optional error log and the finally-block. -/
lemma compress_gif_inv (env : Env) (req : Request) (runningAt : Nat → Bool) (fuel : Nat)
    (evs : List Event) (out : Outcome)
    (h : compress_gif env req runningAt fuel = some (evs, out)) :
    (env.openFails = true ∧ out = Outcome.Failed ∧
      evs = (if req.hasLog then [Event.logError] else []) ++ finallyEvents req) ∨
    (env.openFails = false ∧ ∃ evs0 ex,
      iterate env req (nativeFps env.durationInfo) runningAt fuel 0
        req.initialResolution (nativeFps env.durationInfo) = some (evs0, ex) ∧
      out = LoopExit.toOutcome ex ∧
      evs = evs0 ++ ((if ex = LoopExit.errored then
        (if req.hasLog then [Event.logError] else []) else []) ++ finallyEvents req)) := by
  unfold compress_gif at h
  cases hof : env.openFails
  · rw [if_neg (by simp [hof])] at h
    right
    refine ⟨rfl, ?_⟩
    rcases hit : iterate env req (nativeFps env.durationInfo) runningAt fuel 0
        req.initialResolution (nativeFps env.durationInfo) with _ | ⟨evs0, ex⟩ <;>
      rw [hit] at h
    · cases h
    · injection h with h'
      injection h' with h1 h2
      exact ⟨evs0, ex, rfl, h2.symm, by rw [← h1, List.append_assoc]⟩
  · rw [if_pos hof] at h
    injection h with h'
    injection h' with h1 h2
    exact Or.inl ⟨rfl, h2.symm, h1.symm⟩

lemma paramTrace_finally (req : Request) : paramTrace (finallyEvents req) = [] := by
  unfold finallyEvents
  rw [paramTrace_cons_none Event.clearRunning _ rfl,
    paramTrace_opt req.hasFinish Event.finishCb rfl]

/-- Every completed run's events end with the finally-block: the running
flag is cleared exactly once, at the end, and the finish callback (when
supplied) comes right after it, with neither occurring earlier. -/
lemma compress_shape (env : Env) (req : Request) (runningAt : Nat → Bool) (fuel : Nat)
    (evs : List Event) (out : Outcome)
    (h : compress_gif env req runningAt fuel = some (evs, out)) :
    ∃ pre, evs = pre ++ finallyEvents req ∧
      Event.clearRunning ∉ pre ∧ Event.finishCb ∉ pre := by
  rcases compress_gif_inv env req runningAt fuel evs out h with
    ⟨_, _, hevs⟩ | ⟨_, evs0, ex, hit, _, hevs⟩
  · refine ⟨if req.hasLog then [Event.logError] else [], hevs, ?_, ?_⟩ <;>
      exact not_mem_opt _ _ _ (by decide)
  · have hnf := iterate_no_finally env req (nativeFps env.durationInfo) runningAt fuel 0
      req.initialResolution (nativeFps env.durationInfo) evs0 ex hit
    refine ⟨evs0 ++ (if ex = LoopExit.errored then
        (if req.hasLog then [Event.logError] else []) else []), ?_, ?_, ?_⟩
    · rw [hevs, List.append_assoc]
    · intro hmem
      rcases List.mem_append.mp hmem with hmem1 | hmem1
      · exact hnf.1 hmem1
      · revert hmem1
        split
        · exact not_mem_opt _ _ _ (by decide)
        · simp
    · intro hmem
      rcases List.mem_append.mp hmem with hmem1 | hmem1
      · exact hnf.2 hmem1
      · revert hmem1
        split
        · exact not_mem_opt _ _ _ (by decide)
        · simp

/-- The destination rename happens exactly once on successful runs and
never on any other run. -/
lemma compress_rename (env : Env) (req : Request) (runningAt : Nat → Bool) (fuel : Nat)
    (evs : List Event) (out : Outcome)
    (h : compress_gif env req runningAt fuel = some (evs, out)) :
    evs.countP (fun e => decide (e = Event.renameToDest)) =
      if out = Outcome.Succeeded then 1 else 0 := by
  rcases compress_gif_inv env req runningAt fuel evs out h with
    ⟨_, hout, hevs⟩ | ⟨_, evs0, ex, hit, hout, hevs⟩
  · subst hout; subst hevs
    rw [List.countP_append, countP_opt]
    unfold finallyEvents
    rw [List.countP_cons, countP_opt]
    cases req.hasLog <;> cases req.hasFinish <;> simp
  · subst hout; subst hevs
    rw [List.countP_append, List.countP_append,
      iterate_rename_count env req (nativeFps env.durationInfo) runningAt fuel 0
        req.initialResolution (nativeFps env.durationInfo) evs0 ex hit]
    have hx : (if ex = LoopExit.errored then
        (if req.hasLog then [Event.logError] else []) else []).countP
        (fun e => decide (e = Event.renameToDest)) = 0 := by
      split
      · rw [countP_opt]; cases req.hasLog <;> simp
      · rfl
    have hf : (finallyEvents req).countP (fun e => decide (e = Event.renameToDest)) = 0 := by
      unfold finallyEvents
      rw [List.countP_cons, countP_opt]
      cases req.hasFinish <;> simp
    rw [hx, hf]
    cases ex <;> simp [LoopExit.toOutcome]

/-- The progress trace of a completed run is the progress trace of its
while-loop part. -/
lemma compress_trace (env : Env) (req : Request) (runningAt : Nat → Bool) (fuel : Nat)
    (evs : List Event) (out : Outcome)
    (h : compress_gif env req runningAt fuel = some (evs, out)) :
    paramTrace evs = [] ∨ ∃ evs0 ex,
      iterate env req (nativeFps env.durationInfo) runningAt fuel 0
        req.initialResolution (nativeFps env.durationInfo) = some (evs0, ex) ∧
      paramTrace evs = paramTrace evs0 := by
  rcases compress_gif_inv env req runningAt fuel evs out h with
    ⟨_, _, hevs⟩ | ⟨_, evs0, ex, hit, _, hevs⟩
  · left
    subst hevs
    rw [paramTrace_append, paramTrace_opt req.hasLog Event.logError rfl, paramTrace_finally]
    rfl
  · right
    refine ⟨evs0, ex, hit, ?_⟩
    subst hevs
    rw [paramTrace_append, paramTrace_append, paramTrace_finally]
    have hx : paramTrace (if ex = LoopExit.errored then
        (if req.hasLog then [Event.logError] else []) else []) = [] := by
      split
      · exact paramTrace_opt req.hasLog Event.logError rfl
      · rfl
    rw [hx]
    simp

/-! Concrete runs, computed through the iteration lemmas (the rational
arithmetic is discharged by norm_num). -/

lemma nativeFps_envBig : nativeFps envBig.durationInfo = 10 := by
  norm_num [nativeFps, envBig]

lemma nativeFps_envFit : nativeFps envFit.durationInfo = 10 := by
  norm_num [nativeFps, envFit]

lemma envBig_sel (r : Res) (q q' : ℚ) :
    framesLoop (envBig.procF r) (strideN q q') 0 envBig.frames = 0 :: [] := by
  show framesLoop (envBig.procF r) (strideN q q') 0 (0 :: []) = 0 :: []
  rw [framesLoop_zero_cons]
  rfl

lemma envFit_sel (r : Res) (q q' : ℚ) :
    framesLoop (envFit.procF r) (strideN q q') 0 envFit.frames = 0 :: [] := by
  show framesLoop (envFit.procF r) (strideN q q') 0 (0 :: []) = 0 :: []
  rw [framesLoop_zero_cons]
  rfl

/-- The run of compress_gif on envBig and reqA: nothing fits, the first
iteration finds the height already at its minimum and lowers the frame
rate from 10 to 4, and the second iteration exhausts the search. -/
lemma run_envBig :
    compress_gif envBig reqA (fun _ => true) 3 = some (evsA, Outcome.Exhausted) := by
  have hnp1 : nextParams reqA.initialResolution reqA.minResolution reqA.resolutionStep 10
      reqA.fpsReductionStep = NextStep.slow 4 := by
    apply (nextParams_slow_iff _ _ _ _ _ _).mpr
    refine ⟨by decide, by norm_num [reqA], by norm_num [reqA]⟩
  have hnp2 : nextParams reqA.initialResolution reqA.minResolution reqA.resolutionStep 4
      reqA.fpsReductionStep = NextStep.exhausted := by
    apply (nextParams_exhausted_iff _ _ _ _ _).mpr
    refine ⟨by decide, by norm_num [reqA]⟩
  have hb1 := loopBody_slow envBig reqA 10 (fun _ => true) 0 reqA.initialResolution 10
    0 [] 2000000 4 rfl (envBig_sel reqA.initialResolution 10 10) rfl (by decide) hnp1
  have hb2 := loopBody_exhaust envBig reqA 10 (fun _ => true) 1 reqA.initialResolution 4
    0 [] 2000000 rfl (envBig_sel reqA.initialResolution 10 4) rfl (by decide) hnp2
  unfold compress_gif
  rw [if_neg (by simp [envBig]), nativeFps_envBig,
    iterate_succ_next envBig reqA 10 (fun _ => true) 2 0 reqA.initialResolution 10
      reqA.initialResolution 4 _ hb1,
    iterate_succ_stop envBig reqA 10 (fun _ => true) 1 1 reqA.initialResolution 4 _ _ hb2]
  simp [iterEvs, finallyEvents, reqA, evsA, LoopExit.toOutcome]

/-- The run of compress_gif on envFit and reqFit: the first candidate
fits and the run succeeds after one iteration. -/
lemma run_envFit :
    compress_gif envFit reqFit (fun _ => true) 5 = some (evsFit, Outcome.Succeeded) := by
  have hb := loopBody_success envFit reqFit 10 (fun _ => true) 0 reqFit.initialResolution 10
    0 [] 1 rfl (envFit_sel reqFit.initialResolution 10 10) rfl (by decide)
  unfold compress_gif
  rw [if_neg (by simp [envFit]), nativeFps_envFit,
    iterate_succ_stop envFit reqFit 10 (fun _ => true) 4 0 reqFit.initialResolution 10 _ _ hb]
  simp [iterEvs, finallyEvents, reqFit, evsFit, LoopExit.toOutcome]

/-! Theorems settling the claims. -/

/-- C6: in every iteration, frames are subsampled by the integer stride
N = round(native_fps / current_fps) floored at 1: exactly the frames
whose index is a multiple of N are kept, in their original order (the
selected frames are the index-filtered enumeration of the source frames,
mapped through the per-frame transform, so no reordering or
interpolation occurs), and the stride is always at least 1. -/
theorem claim_C6_stride_subsample {α : Type} (origFps curFps : ℚ) (proc : α → α)
    (frames : List α) :
    strideN origFps curFps = (max 1 (pyRound (origFps / curFps))).toNat ∧
    1 ≤ strideN origFps curFps ∧
    framesLoop proc (strideN origFps curFps) 0 frames =
      ((List.enum frames).filter (fun p => p.1 % strideN origFps curFps == 0)).map
        (fun p => proc p.2) :=
  ⟨rfl, strideN_pos origFps curFps, framesLoop_enumFrom proc _ frames 0⟩

/-- C10: for every source with at least one frame, the subsampling keeps
the frame at index 0 (0 is a multiple of every stride), so the selected
list is never empty and its first element is the processed first source
frame: the encode step's frames[0] access cannot fail on an empty list. -/
theorem claim_C10_first_frame_kept {α : Type} (proc : α → α) (n : Nat) (f : α)
    (rest : List α) :
    framesLoop proc n 0 (f :: rest) ≠ [] ∧
    ∃ t, framesLoop proc n 0 (f :: rest) = proc f :: t := by
  rw [framesLoop_zero_cons]
  exact ⟨by simp, framesLoop proc n 1 rest, rfl⟩

/-- C9: the native frame rate is 1000 divided by the reported frame
interval; a missing interval defaults to 100 ms (yielding the fixed
default rate 10) and a zero interval falls back to 10 directly; in every
case the division is only ever performed with a nonzero interval. -/
theorem claim_C9_native_fps (d : Option ℚ) :
    (d = none → nativeFps d = 10) ∧
    (d = some 0 → nativeFps d = 10) ∧
    (∀ q : ℚ, d = some q → q ≠ 0 → nativeFps d = 1000 / q) ∧
    (nativeFps d = 10 ∨ ∃ q : ℚ, q ≠ 0 ∧ nativeFps d = 1000 / q) := by
  refine ⟨?_, ?_, ?_, ?_⟩
  · rintro rfl
    norm_num [nativeFps]
  · rintro rfl
    simp [nativeFps]
  · rintro q rfl hq
    simp [nativeFps, hq]
  · rcases d with _ | q
    · left; norm_num [nativeFps]
    · by_cases hq : q = 0
      · subst hq; left; simp [nativeFps]
      · right; exact ⟨q, hq, by simp [nativeFps, hq]⟩

/-- Witness for C9 at the concrete input of a source reporting no frame
interval: the native frame rate is the fixed default 10. -/
theorem claim_C9_witness : nativeFps none = 10 :=
  (claim_C9_native_fps none).1 rfl

/-- C1 is refuted: the code's next-parameter policy (line 56) shrinks
resolution only while BOTH axes strictly exceed their minimums, not
while either axis does.  On the valid request reqA, whose width starts
at 40 > 32 while its height starts at the minimum 32, the very first
over-budget iteration reduces the frame rate from 10 to 8 and leaves the
resolution at (40, 32), even though the width still exceeds its minimum. -/
theorem claim_C1_counterexample : ¬ ResolutionFirstPolicy := by
  intro hpol
  have hstep := hpol envBig reqA (fun _ => true) 3 evsA Outcome.Exhausted run_envBig 0
    ((40, 32), 10) ((40, 32), 4) rfl rfl (Or.inl (by decide))
  have hfps : (4 : ℚ) = 10 := hstep.1
  norm_num at hfps

/-- C1 amended: the next-parameter policy shrinks both axes by the
resolution step, clamped from below to the minimum, only while BOTH axes
strictly exceed their minimums; as soon as either axis is at or below
its minimum the policy reduces the frame rate by the step (when the rate
still exceeds the step) or declares exhaustion (otherwise), even if the
other axis still exceeds its minimum. -/
theorem claim_C1_amended (res minRes : Res) (step : Nat) (fps fstep : ℚ) :
    (minRes.1 < res.1 ∧ minRes.2 < res.2 →
      nextParams res minRes step fps fstep =
        NextStep.shrink (max minRes.1 (res.1 - step), max minRes.2 (res.2 - step))) ∧
    (¬(minRes.1 < res.1 ∧ minRes.2 < res.2) → fstep < fps →
      nextParams res minRes step fps fstep = NextStep.slow (fps - fstep)) ∧
    (¬(minRes.1 < res.1 ∧ minRes.2 < res.2) → fps ≤ fstep →
      nextParams res minRes step fps fstep = NextStep.exhausted) := by
  refine ⟨?_, ?_, ?_⟩
  · intro h
    exact (nextParams_shrink_iff _ _ _ _ _ _).mpr ⟨h, rfl⟩
  · intro h1 h2
    exact (nextParams_slow_iff _ _ _ _ _ _).mpr ⟨h1, h2, rfl⟩
  · intro h1 h2
    exact (nextParams_exhausted_iff _ _ _ _ _).mpr ⟨h1, h2⟩

/-- Witness for the amended C1 at concrete inputs: with the height at its
minimum the policy lowers the frame rate although the width exceeds its
minimum, and with both axes above their minimums it shrinks both. -/
theorem claim_C1_amended_witness :
    nextParams (40, 32) (32, 32) 8 10 2 = NextStep.slow (10 - 2) ∧
    nextParams (40, 40) (32, 32) 8 10 2 =
      NextStep.shrink (max 32 (40 - 8), max 32 (40 - 8)) :=
  ⟨(claim_C1_amended (40, 32) (32, 32) 8 10 2).2.1 (by decide) (by norm_num),
   (claim_C1_amended (40, 40) (32, 32) 8 10 2).1 (by decide)⟩

/-- C2: for every valid request (all numeric fields positive, initial
resolution at least the minimum on both axes) run without cancellation
on a decodable non-empty source whose every encode succeeds but exceeds
the budget, the loop terminates with the Exhausted outcome (hence not
Failed) within the explicit iteration bound loopBound, derived from the
per-axis resolution slack and the native frame rate over the fps step;
in particular it never loops forever. -/
theorem claim_C2_exhaustion (env : Env) (req : Request) (runningAt : Nat → Bool)
    (hstep : 0 < req.resolutionStep) (hfstep : 0 < req.fpsReductionStep)
    (hkb : 0 < req.maxSizeKB)
    (hmin1 : 0 < req.minResolution.1) (hmin2 : 0 < req.minResolution.2)
    (hinit1 : req.minResolution.1 ≤ req.initialResolution.1)
    (hinit2 : req.minResolution.2 ≤ req.initialResolution.2)
    (hopen : env.openFails = false) (hne : env.frames ≠ [])
    (hbig : ∀ l, ∃ s, env.encodeSize l = Except.ok s ∧ req.maxSizeBytes < s)
    (hrun : ∀ k, runningAt k = true) :
    ∀ fuel, loopBound req env ≤ fuel →
      ∃ evs, compress_gif env req runningAt fuel = some (evs, Outcome.Exhausted) := by
  intro fuel hfuel
  obtain ⟨evs0, hit⟩ := iterate_exhausts env req (nativeFps env.durationInfo) runningAt
    hstep hfstep hne hbig hrun fuel req.initialResolution (nativeFps env.durationInfo) 0
    (by unfold loopBound at hfuel; omega)
  refine ⟨evs0 ++ ((if LoopExit.exhausted = LoopExit.errored then
      (if req.hasLog then [Event.logError] else []) else []) ++ finallyEvents req), ?_⟩
  unfold compress_gif
  rw [if_neg (by simp [hopen]), hit]
  simp [List.append_assoc, LoopExit.toOutcome]

/-- Witness for C2 at the concrete environment envBig and request reqA,
where every encode measures 2000000 bytes against a 1024-byte budget:
the run with fuel loopBound ends Exhausted. -/
theorem claim_C2_witness :
    ∃ evs, compress_gif envBig reqA (fun _ => true) (loopBound reqA envBig) =
      some (evs, Outcome.Exhausted) :=
  claim_C2_exhaustion envBig reqA (fun _ => true) (by decide) (by norm_num [reqA])
    (by decide) (by decide) (by decide) (by decide) (by decide) rfl (by decide)
    (fun l => ⟨2000000, rfl, by decide⟩) (fun k => rfl) (loopBound reqA envBig) (le_refl _)

/-- C3: across the successive progress events of one run, both
resolution axes and the frame rate are non-increasing, and once any
frame-rate reduction has occurred (the rate strictly drops between two
consecutive events) the resolution is never changed again in any later
pair of consecutive events; together these give resolution-first
monotonicity: resolution only shrinks while the rate is still at its
initial value, and after the switch only the rate decreases. -/
theorem claim_C3_monotone (env : Env) (req : Request) (runningAt : Nat → Bool)
    (fuel : Nat) (evs : List Event) (out : Outcome)
    (hfstep : 0 < req.fpsReductionStep)
    (h : compress_gif env req runningAt fuel = some (evs, out)) :
    (∀ (i : Nat) (a b : Res × ℚ), (paramTrace evs)[i]? = some a →
      (paramTrace evs)[i + 1]? = some b →
      b.1.1 ≤ a.1.1 ∧ b.1.2 ≤ a.1.2 ∧ b.2 ≤ a.2) ∧
    (∀ (i j : Nat) (a b c d : Res × ℚ), i ≤ j →
      (paramTrace evs)[i]? = some a → (paramTrace evs)[i + 1]? = some b →
      (paramTrace evs)[j]? = some c → (paramTrace evs)[j + 1]? = some d →
      b.2 < a.2 → d.1 = c.1) := by
  rcases compress_trace env req runningAt fuel evs out h with htr | ⟨evs0, ex, hit, htr⟩
  · rw [htr]
    constructor
    · intro i a b ha hb
      rw [List.getElem?_nil] at ha
      cases ha
    · intro i j a b c d hij ha hb hc hd hlt
      rw [List.getElem?_nil] at ha
      cases ha
  · rw [htr]
    constructor
    · exact iterate_desc env req (nativeFps env.durationInfo) runningAt hfstep fuel 0
        req.initialResolution (nativeFps env.durationInfo) evs0 ex hit
    · cases hL : req.hasLog
      · have hnil := iterate_trace_nil env req (nativeFps env.durationInfo) runningAt hL
          fuel 0 req.initialResolution (nativeFps env.durationInfo) evs0 ex hit
        rw [hnil]
        intro i j a b c d hij ha hb hc hd hlt
        rw [List.getElem?_nil] at ha
        cases ha
      · obtain ⟨n0, resC, hp1, hp2⟩ := iterate_shape env req (nativeFps env.durationInfo)
          runningAt hL fuel 0 req.initialResolution (nativeFps env.durationInfo) evs0 ex hit
        intro i j a b c d hij ha hb hc hd hlt
        by_cases hin : i + 1 ≤ n0
        · have hA := hp1 i a ha (by omega)
          have hB := hp1 (i + 1) b hb hin
          rw [hA, hB] at hlt
          exact absurd hlt (lt_irrefl _)
        · rw [hp2 j c hc (by omega), hp2 (j + 1) d hd (by omega)]

/-- Witness for C3 at the concrete run on envBig and reqA: between the
first two progress events the frame rate drops from 10 to 4, and the
resolution reported afterwards is unchanged. -/
theorem claim_C3_witness :
    (4 : ℚ) < 10 ∧ ((((40, 32), 4) : Res × ℚ)).1 = ((((40, 32), 10) : Res × ℚ)).1 :=
  ⟨by norm_num,
   (claim_C3_monotone envBig reqA (fun _ => true) 3 evsA Outcome.Exhausted
      (by norm_num [reqA]) run_envBig).2 0 0
      ((40, 32), 10) ((40, 32), 4) ((40, 32), 10) ((40, 32), 4)
      (le_refl 0) rfl rfl rfl rfl (by norm_num)⟩

/-- C4: in every run, the rename of the temporary artifact onto the
destination path happens exactly once when the outcome is Succeeded and
never otherwise: on Cancelled, Exhausted and Failed runs the destination
is never created or modified. -/
theorem claim_C4_rename_once (env : Env) (req : Request) (runningAt : Nat → Bool)
    (fuel : Nat) (evs : List Event) (out : Outcome)
    (h : compress_gif env req runningAt fuel = some (evs, out)) :
    evs.countP (fun e => decide (e = Event.renameToDest)) =
      if out = Outcome.Succeeded then 1 else 0 :=
  compress_rename env req runningAt fuel evs out h

/-- Witness for C4 at the successful concrete run on envFit and reqFit:
its event list contains exactly one rename. -/
theorem claim_C4_witness :
    evsFit.countP (fun e => decide (e = Event.renameToDest)) =
      if Outcome.Succeeded = Outcome.Succeeded then 1 else 0 :=
  claim_C4_rename_once envFit reqFit (fun _ => true) 5 evsFit Outcome.Succeeded run_envFit

/-- C5: for every request whose initial resolution equals its minimum,
run with all callbacks supplied on a decodable source with at least one
frame whose first encoded candidate already fits the budget, the run
terminates Succeeded after exactly one loop iteration: one encode, one
progress event, one preview, one rename, the success log and the
finally-block, in that order. -/
theorem claim_C5_first_fit (env : Env) (req : Request) (runningAt : Nat → Bool)
    (fuel size : Nat) (f0 : Nat) (fs : List Nat)
    (hres : req.initialResolution = req.minResolution)
    (hopen : env.openFails = false)
    (hrun0 : runningAt 0 = true)
    (hlog : req.hasLog = true) (hprev : req.hasPreview = true) (hfin : req.hasFinish = true)
    (hfuel : 1 ≤ fuel)
    (hsel : framesLoop (env.procF req.initialResolution)
      (strideN (nativeFps env.durationInfo) (nativeFps env.durationInfo)) 0 env.frames
      = f0 :: fs)
    (hok : env.encodeSize (f0 :: fs) = Except.ok size)
    (hsize : size ≤ req.maxSizeBytes) :
    compress_gif env req runningAt fuel = some
      ([Event.encodeTemp (f0 :: fs),
        Event.progressMsg size req.initialResolution (nativeFps env.durationInfo),
        Event.previewTemp, Event.renameToDest, Event.logSuccess,
        Event.clearRunning, Event.finishCb], Outcome.Succeeded) := by
  obtain ⟨n, rfl⟩ : ∃ n, fuel = n + 1 := ⟨fuel - 1, by omega⟩
  have hb := loopBody_success env req (nativeFps env.durationInfo) runningAt 0
    req.initialResolution (nativeFps env.durationInfo) f0 fs size hrun0 hsel hok hsize
  unfold compress_gif
  rw [if_neg (by simp [hopen]),
    iterate_succ_stop env req (nativeFps env.durationInfo) runningAt n 0
      req.initialResolution (nativeFps env.durationInfo) _ _ hb]
  simp [iterEvs, finallyEvents, hlog, hprev, hfin, LoopExit.toOutcome]

/-- Witness for C5 at the concrete environment envFit and request reqFit
(initial resolution equal to the minimum, first candidate of 1 byte
within the 1024-byte budget): the run succeeds in one iteration. -/
theorem claim_C5_witness :
    compress_gif envFit reqFit (fun _ => true) 5 = some (evsFit, Outcome.Succeeded) := by
  have h := claim_C5_first_fit envFit reqFit (fun _ => true) 5 1 0 []
    rfl rfl rfl rfl rfl rfl (by omega)
    (envFit_sel reqFit.initialResolution (nativeFps envFit.durationInfo)
      (nativeFps envFit.durationInfo))
    rfl (by decide)
  rw [h, nativeFps_envFit]
  rfl

/-- C7: on every exit of the compression loop, whatever the outcome, the
running flag is cleared, and it is cleared before the finish callback is
invoked: the events of every completed run end with the flag-clearing
followed (when a finish callback was supplied) by the finish callback,
and neither of these events occurs anywhere earlier in the run. -/
theorem claim_C7_flag_before_finish (env : Env) (req : Request) (runningAt : Nat → Bool)
    (fuel : Nat) (evs : List Event) (out : Outcome)
    (h : compress_gif env req runningAt fuel = some (evs, out)) :
    ∃ pre, evs = pre ++ Event.clearRunning ::
        (if req.hasFinish then [Event.finishCb] else []) ∧
      Event.clearRunning ∉ pre ∧ Event.finishCb ∉ pre :=
  compress_shape env req runningAt fuel evs out h

/-- Witness for C7 at the successful concrete run on envFit and reqFit. -/
theorem claim_C7_witness :
    ∃ pre, evsFit = pre ++ Event.clearRunning ::
        (if reqFit.hasFinish then [Event.finishCb] else []) ∧
      Event.clearRunning ∉ pre ∧ Event.finishCb ∉ pre :=
  claim_C7_flag_before_finish envFit reqFit (fun _ => true) 5 evsFit Outcome.Succeeded
    run_envFit

/-- C8: for every run started with a finish callback supplied, the
finish callback is invoked exactly once, whatever terminal outcome the
run reaches. -/
theorem claim_C8_finish_once (env : Env) (req : Request) (runningAt : Nat → Bool)
    (fuel : Nat) (evs : List Event) (out : Outcome)
    (hfin : req.hasFinish = true)
    (h : compress_gif env req runningAt fuel = some (evs, out)) :
    evs.countP (fun e => decide (e = Event.finishCb)) = 1 := by
  obtain ⟨pre, hevs, _, hnf⟩ := compress_shape env req runningAt fuel evs out h
  subst hevs
  rw [List.countP_append]
  have h1 : pre.countP (fun e => decide (e = Event.finishCb)) = 0 := by
    apply List.countP_eq_zero.mpr
    intro e he
    simp only [decide_eq_true_eq]
    intro h2
    subst h2
    exact hnf he
  have h2 : (finallyEvents req).countP (fun e => decide (e = Event.finishCb)) = 1 := by
    unfold finallyEvents
    rw [hfin]
    simp [List.countP_cons]
  rw [h1, h2]

/-- Witness for C8 at the successful concrete run on envFit and reqFit:
the finish callback appears exactly once in the event list. -/
theorem claim_C8_witness :
    evsFit.countP (fun e => decide (e = Event.finishCb)) = 1 :=
  claim_C8_finish_once envFit reqFit (fun _ => true) 5 evsFit Outcome.Succeeded rfl
    run_envFit

end ZipGif
